import Mathlib

/-!
Verification of the partition-traversal engine of a Spanner change-stream
reader (`src/changestreams/reader.go`).

The engine keeps a registry `states : map[string]partitionState` guarded by a
mutex, with three operations (`markStateReading`, `markStateFinished`,
`canReadChild`), a per-partition task (`startRead`) that streams rows,
decodes them, delivers each decoded result to a sink callback, accumulates
child-partition announcements and, on clean completion, marks the partition
finished and spawns eligible children, and a one-shot entry point (`Read`).

The embedding below is sequential: the execution of one task is modelled as a
pure function producing its final registry, an ordered event trace (claim,
sink calls, finish, spawns, return), the spawn requests it issued, and its
error.  Rows are abstracted to their decode outcome; the stream may end in
an error after the delivered rows.  Go map indexing on an absent key yields
the zero value `partitionStateUnknown`, which `stateOf` reproduces.
-/

namespace ChangeStreams

/-- Model of `partitionState` from reader.go: iota constants Unknown, Reading, Finished. -/
inductive PartitionState where
  | unknown
  | reading
  | finished
deriving DecidableEq, Repr

/-- The registry `states : map[string]partitionState`, as an association list;
lookups take the first binding, later insertions shadow earlier ones. -/
abbrev States := List (String × PartitionState)

/-- Map lookup: `v, ok := r.states[tok]` — `none` when the key is absent. -/
def lookupState (s : States) (tok : String) : Option PartitionState :=
  match s.find? (fun p => p.1 == tok) with
  | some p => some p.2
  | none => none

/-- Go map indexing `r.states[tok]` returns the zero value
`partitionStateUnknown` when the key is absent. -/
def stateOf (s : States) (tok : String) : PartitionState :=
  (lookupState s tok).getD PartitionState.unknown

/-- Model of `Reader.markStateReading`: under the mutex, if the token already has an
entry return false and leave the map alone; otherwise insert it as Reading
and return true. -/
def markStateReading (s : States) (partitionToken : String) : Bool × States :=
  match lookupState s partitionToken with
  | some _ => (false, s)
  | none => (true, (partitionToken, PartitionState.reading) :: s)

/-- Model of `Reader.markStateFinished`: under the mutex, set the entry to Finished. -/
def markStateFinished (s : States) (partitionToken : String) : States :=
  (partitionToken, PartitionState.finished) :: s

/-- Model of the `ChildPartition` record: a child token plus the parent tokens it waits on. -/
structure ChildPartition where
  token : String
  parentPartitionTokens : List String
deriving DecidableEq, Repr

/-- Model of `Reader.canReadChild`: under the mutex, false as soon as one parent token
does not map to Finished (absent keys read as Unknown), true otherwise. -/
def canReadChild (s : States) (partition : ChildPartition) : Bool :=
  partition.parentPartitionTokens.all
    (fun parent => decide (stateOf s parent = PartitionState.finished))

/-- The registry operations that mutate the map during a Read call. -/
inductive RegOp where
  | claim (token : String)
  | finish (token : String)

/-- Apply one registry mutation. -/
def applyOp (s : States) : RegOp → States
  | RegOp.claim t => (markStateReading s t).2
  | RegOp.finish t => markStateFinished s t

/-- Apply a sequence of registry mutations in order. -/
def applyOps (s : States) (ops : List RegOp) : States := ops.foldl applyOp s

/-- Rank of a state in the forward order Unknown → Reading → Finished. -/
def stateRank : PartitionState → Nat
  | PartitionState.unknown => 0
  | PartitionState.reading => 1
  | PartitionState.finished => 2

theorem lookupState_cons (tok t : String) (v : PartitionState) (s : States) :
    lookupState ((t, v) :: s) tok = if t = tok then some v else lookupState s tok := by
  simp only [lookupState, List.find?]
  by_cases h : t = tok
  · simp [h]
  · simp [h, beq_eq_false_iff_ne.mpr h]

theorem markStateReading_true_iff (s : States) (tok : String) :
    (markStateReading s tok).1 = true ↔ lookupState s tok = none := by
  unfold markStateReading
  cases h : lookupState s tok <;> simp [h]

theorem markStateReading_false_eq (s : States) (tok : String)
    (h : (markStateReading s tok).1 = false) : (markStateReading s tok).2 = s := by
  unfold markStateReading at *
  cases hl : lookupState s tok <;> simp [hl] at *

theorem markStateReading_true_lookup (s : States) (tok : String)
    (h : (markStateReading s tok).1 = true) :
    lookupState (markStateReading s tok).2 tok = some PartitionState.reading := by
  have hn : lookupState s tok = none := (markStateReading_true_iff s tok).mp h
  unfold markStateReading
  simp [hn, lookupState_cons]

/-- Presence of a key in the registry survives every registry mutation. -/
theorem applyOp_preserves_mem (s : States) (op : RegOp) (t : String)
    (h : lookupState s t ≠ none) : lookupState (applyOp s op) t ≠ none := by
  cases op with
  | claim u =>
    simp only [applyOp, markStateReading]
    cases hl : lookupState s u with
    | some v => simpa [hl] using h
    | none =>
      simp only [lookupState_cons]
      by_cases hu : u = t
      · simp [hu]
      · simpa [hu] using h
  | finish u =>
    simp only [applyOp, markStateFinished, lookupState_cons]
    by_cases hu : u = t
    · simp [hu]
    · simpa [hu] using h

theorem applyOps_preserves_mem (s : States) (ops : List RegOp) (t : String)
    (h : lookupState s t ≠ none) : lookupState (applyOps s ops) t ≠ none := by
  induction ops generalizing s with
  | nil => simpa [applyOps] using h
  | cons op rest ih =>
    have := applyOp_preserves_mem s op t h
    simpa [applyOps, List.foldl] using ih (applyOp s op) this

/-- Every single registry mutation moves the state of every token weakly forward. -/
theorem applyOp_rank_mono (s : States) (op : RegOp) (t : String) :
    stateRank (stateOf s t) ≤ stateRank (stateOf (applyOp s op) t) := by
  cases op with
  | claim u =>
    simp only [applyOp, markStateReading]
    cases hl : lookupState s u with
    | some v => simp
    | none =>
      simp only [stateOf, lookupState_cons]
      by_cases hu : u = t
      · subst hu
        simp [hl, stateRank]
      · simp [hu]
  | finish u =>
    simp only [applyOp, markStateFinished, stateOf, lookupState_cons]
    by_cases hu : u = t
    · simp only [hu, if_pos rfl, Option.getD_some]
      cases (lookupState s t).getD PartitionState.unknown <;> simp [stateRank]
    · simp [hu]

theorem applyOps_rank_mono (s : States) (ops : List RegOp) (t : String) :
    stateRank (stateOf s t) ≤ stateRank (stateOf (applyOps s ops) t) := by
  induction ops generalizing s with
  | nil => simp [applyOps]
  | cons op rest ih =>
    exact le_trans (applyOp_rank_mono s op t)
      (by simpa [applyOps, List.foldl] using ih (applyOp s op))

theorem canReadChild_eq_true_iff (s : States) (c : ChildPartition) :
    canReadChild s c = true ↔
      ∀ t ∈ c.parentPartitionTokens, stateOf s t = PartitionState.finished := by
  simp [canReadChild, List.all_eq_true]

/-- Model of `DataChangeRecord`, reduced to the fields the traversal core can see;
the payload is carried abstractly so rows stay distinguishable. -/
structure DataChangeRecord where
  recordSequence : String
deriving DecidableEq, Repr

/-- Model of `HeartbeatRecord`; the timestamp is modelled as a natural number. -/
structure HeartbeatRecord where
  timestamp : Nat
deriving DecidableEq, Repr

/-- Model of `ChildPartitionsRecord`: start timestamp plus the announced children. -/
structure ChildPartitionsRecord where
  startTimestamp : Nat
  recordSequence : String
  childPartitions : List ChildPartition
deriving DecidableEq, Repr

/-- Model of `ChangeRecord`: the unit decoded from one row. -/
structure ChangeRecord where
  dataChangeRecords : List DataChangeRecord
  heartbeatRecords : List HeartbeatRecord
  childPartitionsRecords : List ChildPartitionsRecord
deriving DecidableEq, Repr

/-- Model of `ReadResult`: what one sink invocation receives. -/
structure ReadResult where
  partitionToken : String
  changeRecords : List ChangeRecord
deriving DecidableEq, Repr

/-- Errors are abstracted to their message. -/
abbrev Err := String

/-- One raw row, abstracted to its decode outcome: `.ok` is the list of
change records ToStructLenient / decodePostgresRow would produce, `.error`
a decode failure. -/
abbrev Row := Except Err (List ChangeRecord)

/-- The row stream for one partition: the rows it delivers, then an optional
stream error it yields after them. -/
structure RowStream where
  rows : List Row
  streamErr : Option Err
deriving Repr

/-- The sink callback `f`: `none` is a nil error. -/
abbrev Sink := ReadResult → Option Err

/-- The dialects of reader.go; `other` is the default branch of the switch. -/
inductive Dialect where
  | googleSQL
  | postgreSQL
  | other
deriving DecidableEq, Repr

/-- Observable events of one partition task, in execution order. -/
inductive Event where
  | claim (token : String) (ok : Bool)
  | sink (result : ReadResult)
  | finish (token : String)
  | spawn (token : String) (startTimestamp : Nat)
  | taskReturn (err : Option Err)
deriving DecidableEq, Repr

/-- A `group.Go` request for a child partition. -/
structure SpawnReq where
  token : String
  startTimestamp : Nat
deriving DecidableEq, Repr

/-- What one `startRead` invocation leaves behind: the registry it hands on,
its ordered event trace, the spawn requests it issued, and its error. -/
structure TaskResult where
  states : States
  events : List Event
  spawns : List SpawnReq
  err : Option Err
deriving Repr

/-- The child-partitions records one decoded row contributes to
`childPartitionRecords` (the `len > 0` guard in the Go loop included). -/
def rowChildRecords (changeRecords : List ChangeRecord) : List ChildPartitionsRecord :=
  (changeRecords.filter (fun cr => cr.childPartitionsRecords.length > 0)).flatMap
    (fun cr => cr.childPartitionsRecords)

/-- The body of `Query(ctx, stmt).Do(func(row) ...)`: decode each row,
accumulate its child-partitions records, deliver the result to the sink;
stop at the first decode or sink error.  Returns the accumulated records,
the sink events in order, and the error `Do` returns from the callback. -/
def processRows (sink : Sink) (partitionToken : String) :
    List Row → List ChildPartitionsRecord →
    List ChildPartitionsRecord × List Event × Option Err
  | [], acc => (acc, [], none)
  | row :: rest, acc =>
    match row with
    | Except.error e => (acc, [], some e)
    | Except.ok changeRecords =>
      let readResult : ReadResult :=
        { partitionToken := partitionToken, changeRecords := changeRecords }
      let acc2 := acc ++ rowChildRecords changeRecords
      match sink readResult with
      | some e => (acc2, [Event.sink readResult], some e)
      | none =>
        let tail := processRows sink partitionToken rest acc2
        (tail.1, Event.sink readResult :: tail.2.1, tail.2.2)

/-- The spawn requests the clean-completion loop issues: for every
accumulated child-partitions record, every listed child passing
`canReadChild` against the post-finish registry. -/
def spawnRequests (s : States) (cprs : List ChildPartitionsRecord) : List SpawnReq :=
  cprs.flatMap (fun cpr =>
    (cpr.childPartitions.filter (fun c => canReadChild s c)).map
      (fun c => { token := c.token, startTimestamp := cpr.startTimestamp }))

/-- Model of `Reader.startRead` as one sequential task: claim the token (bail out
silently on failure), fail on an unexpected dialect, stream and process the
rows, propagate the first error without finishing, and on clean exhaustion
mark Finished and spawn the eligible children before returning. -/
def startRead (d : Dialect) (stream : RowStream) (sink : Sink)
    (states : States) (partitionToken : String) (startTimestamp : Nat) : TaskResult :=
  let claimResult := markStateReading states partitionToken
  if claimResult.1 = false then
    { states := claimResult.2
      events := [Event.claim partitionToken false, Event.taskReturn none]
      spawns := []
      err := none }
  else if d = Dialect.other then
    { states := claimResult.2
      events := [Event.claim partitionToken true,
                 Event.taskReturn (some "unexpected dialect")]
      spawns := []
      err := some "unexpected dialect" }
  else
    let pr := processRows sink partitionToken stream.rows []
    match (match pr.2.2 with | some e => some e | none => stream.streamErr) with
    | some e =>
      { states := claimResult.2
        events := Event.claim partitionToken true :: pr.2.1
                    ++ [Event.taskReturn (some e)]
        spawns := []
        err := some e }
    | none =>
      let finishedStates := markStateFinished claimResult.2 partitionToken
      let spawnList := spawnRequests finishedStates pr.1
      { states := finishedStates
        events := Event.claim partitionToken true :: pr.2.1
                    ++ [Event.finish partitionToken]
                    ++ spawnList.map (fun sp => Event.spawn sp.token sp.startTimestamp)
                    ++ [Event.taskReturn none]
        spawns := spawnList
        err := none }

/-- The call-scoped fields of `Reader` that the traversal mutates:
`startTimestamp` (0 plays the `time.Time` zero value), the dialect, the
registry, and whether `r.group` has been set by a previous Read call. -/
structure Reader where
  startTimestamp : Nat
  dialect : Dialect
  states : States
  groupSet : Bool
deriving Repr

/-- What one `Read` call produces: the reader afterwards, the root spawn
requests it issued, the run of the root task (when one was started), and the
error handed back by group.Wait (in this sequential collapse, the error
of the root task). -/
structure ReadOutcome where
  reader : Reader
  rootSpawns : List SpawnReq
  rootTask : Option TaskResult
  err : Option Err
deriving Repr

/-- Model of `Reader.Read`: under the mutex, fail on reentry; otherwise install the
errgroup, spawn the root task with the empty token starting at the
configured timestamp (or `now` when it is the zero value), and wait. -/
def Reader.read (r : Reader) (now : Nat) (stream : RowStream) (sink : Sink) :
    ReadOutcome :=
  if r.groupSet then
    { reader := r
      rootSpawns := []
      rootTask := none
      err := some "reader has already been read" }
  else
    let start := if r.startTimestamp = 0 then now else r.startTimestamp
    let task := startRead r.dialect stream sink r.states "" start
    { reader := { r with groupSet := true, states := task.states }
      rootSpawns := [{ token := "", startTimestamp := start }]
      rootTask := some task
      err := task.err }

theorem markStateReading_of_mem (s : States) (tok : String) (v : PartitionState)
    (h : lookupState s tok = some v) : markStateReading s tok = (false, s) := by
  simp [markStateReading, h]

theorem markStateReading_of_not_mem (s : States) (tok : String)
    (h : lookupState s tok = none) :
    markStateReading s tok = (true, (tok, PartitionState.reading) :: s) := by
  simp [markStateReading, h]

/-- Every event `Query(...).Do` emits on behalf of the callback is a sink
delivery. -/
theorem processRows_events_are_sink (sink : Sink) (tok : String)
    (rows : List Row) (acc : List ChildPartitionsRecord) :
    ∀ e ∈ (processRows sink tok rows acc).2.1, ∃ rr, e = Event.sink rr := by
  induction rows generalizing acc with
  | nil => simp [processRows]
  | cons row rest ih =>
    cases row with
    | error msg => simp [processRows]
    | ok cs =>
      cases hs : sink { partitionToken := tok, changeRecords := cs } with
      | some msg =>
        intro e he
        simp only [processRows, hs, List.mem_singleton] at he
        exact ⟨_, he⟩
      | none =>
        intro e he
        simp only [processRows, hs, List.mem_cons] at he
        rcases he with he | he
        · exact ⟨_, he⟩
        · exact ih _ e he

/-- When `Do` returns nil, every row decoded cleanly and the sink events are
one per row, in stream order. -/
theorem processRows_ok_events (sink : Sink) (tok : String)
    (rows : List Row) (acc : List ChildPartitionsRecord)
    (h : (processRows sink tok rows acc).2.2 = none) :
    ∃ decoded : List (List ChangeRecord),
      rows = decoded.map Except.ok
      ∧ (processRows sink tok rows acc).2.1
          = decoded.map
              (fun cs => Event.sink { partitionToken := tok, changeRecords := cs }) := by
  induction rows generalizing acc with
  | nil => exact ⟨[], by simp [processRows]⟩
  | cons row rest ih =>
    cases row with
    | error msg => simp [processRows] at h
    | ok cs =>
      cases hs : sink { partitionToken := tok, changeRecords := cs } with
      | some msg => simp [processRows, hs] at h
      | none =>
        have h2 : (processRows sink tok rest (acc ++ rowChildRecords cs)).2.2 = none := by
          simpa [processRows, hs] using h
        obtain ⟨decoded, hrows, hevs⟩ := ih _ h2
        exact ⟨cs :: decoded, by simp [hrows], by simp [processRows, hs, hevs]⟩

/-- Every spawn request comes from an announced child that passed the
`canReadChild` gate against the given registry. -/
theorem mem_spawnRequests (s : States) (cprs : List ChildPartitionsRecord)
    (sp : SpawnReq) (h : sp ∈ spawnRequests s cprs) :
    ∃ c : ChildPartition, c.token = sp.token ∧ canReadChild s c = true := by
  simp only [spawnRequests, List.mem_flatMap, List.mem_map, List.mem_filter] at h
  obtain ⟨cpr, _, c, ⟨_, hcan⟩, hsp⟩ := h
  exact ⟨c, by simp [← hsp], hcan⟩

/-- Shape of `startRead` when the claim fails: silent no-op. -/
theorem startRead_of_claim_fail (d : Dialect) (stream : RowStream) (sink : Sink)
    (states : States) (tok : String) (st : Nat) (v : PartitionState)
    (h : lookupState states tok = some v) :
    startRead d stream sink states tok st =
      { states := states
        events := [Event.claim tok false, Event.taskReturn none]
        spawns := []
        err := none } := by
  simp [startRead, markStateReading_of_mem states tok v h]

/-- Shape of `startRead` when the claim succeeds but the dialect switch falls through
to the default branch: error after claiming, nothing else. -/
theorem startRead_of_other_dialect (stream : RowStream) (sink : Sink)
    (states : States) (tok : String) (st : Nat)
    (h : lookupState states tok = none) :
    startRead Dialect.other stream sink states tok st =
      { states := (tok, PartitionState.reading) :: states
        events := [Event.claim tok true, Event.taskReturn (some "unexpected dialect")]
        spawns := []
        err := some "unexpected dialect" } := by
  simp [startRead, markStateReading_of_not_mem states tok h]

/-- Shape of `startRead` when the claim succeeds and row processing errors. -/
theorem startRead_of_row_err (d : Dialect) (stream : RowStream) (sink : Sink)
    (states : States) (tok : String) (st : Nat) (e : Err)
    (hclaim : lookupState states tok = none) (hd : d ≠ Dialect.other)
    (herr : (processRows sink tok stream.rows []).2.2 = some e) :
    startRead d stream sink states tok st =
      { states := (tok, PartitionState.reading) :: states
        events := Event.claim tok true :: (processRows sink tok stream.rows []).2.1
                    ++ [Event.taskReturn (some e)]
        spawns := []
        err := some e } := by
  simp [startRead, markStateReading_of_not_mem states tok hclaim, hd, herr]

/-- Shape of `startRead` when the claim succeeds, the rows process cleanly, and the
stream then yields an error. -/
theorem startRead_of_stream_err (d : Dialect) (stream : RowStream) (sink : Sink)
    (states : States) (tok : String) (st : Nat) (e : Err)
    (hclaim : lookupState states tok = none) (hd : d ≠ Dialect.other)
    (hrows : (processRows sink tok stream.rows []).2.2 = none)
    (hstream : stream.streamErr = some e) :
    startRead d stream sink states tok st =
      { states := (tok, PartitionState.reading) :: states
        events := Event.claim tok true :: (processRows sink tok stream.rows []).2.1
                    ++ [Event.taskReturn (some e)]
        spawns := []
        err := some e } := by
  simp [startRead, markStateReading_of_not_mem states tok hclaim, hd, hrows, hstream]

/-- Shape of `startRead` on clean completion: mark Finished, then spawn every
eligible announced child, then return nil. -/
theorem startRead_of_clean (d : Dialect) (stream : RowStream) (sink : Sink)
    (states : States) (tok : String) (st : Nat)
    (hclaim : lookupState states tok = none) (hd : d ≠ Dialect.other)
    (hrows : (processRows sink tok stream.rows []).2.2 = none)
    (hstream : stream.streamErr = none) :
    startRead d stream sink states tok st =
      { states := (tok, PartitionState.finished) :: (tok, PartitionState.reading) :: states
        events := Event.claim tok true :: (processRows sink tok stream.rows []).2.1
                    ++ [Event.finish tok]
                    ++ (spawnRequests
                          ((tok, PartitionState.finished) :: (tok, PartitionState.reading) :: states)
                          (processRows sink tok stream.rows []).1).map
                        (fun sp => Event.spawn sp.token sp.startTimestamp)
                    ++ [Event.taskReturn none]
        spawns := spawnRequests
                    ((tok, PartitionState.finished) :: (tok, PartitionState.reading) :: states)
                    (processRows sink tok stream.rows []).1
        err := none } := by
  simp [startRead, markStateReading_of_not_mem states tok hclaim, hd, hrows, hstream,
    markStateFinished]

/-- After a successful claim of a token, no later sequence of registry
operations can make a claim of the same token succeed again. -/
theorem claim_false_after (s : States) (tok : String) (ops : List RegOp)
    (h : (markStateReading s tok).1 = true) :
    (markStateReading (applyOps (markStateReading s tok).2 ops) tok).1 = false := by
  have h1 : lookupState (markStateReading s tok).2 tok ≠ none := by
    simp [markStateReading_true_lookup s tok h]
  have h2 := applyOps_preserves_mem _ ops tok h1
  cases hb : (markStateReading (applyOps (markStateReading s tok).2 ops) tok).1 with
  | false => rfl
  | true => exact absurd ((markStateReading_true_iff _ tok).mp hb) h2

/-- The callback events contain no finish and no spawn markers. -/
theorem processRows_no_finish_no_spawn (sink : Sink) (tok : String)
    (rows : List Row) (acc : List ChildPartitionsRecord) :
    (∀ t, Event.finish t ∉ (processRows sink tok rows acc).2.1)
    ∧ (∀ t ts, Event.spawn t ts ∉ (processRows sink tok rows acc).2.1)
    ∧ (∀ e2, Event.taskReturn e2 ∉ (processRows sink tok rows acc).2.1) := by
  refine ⟨?_, ?_, ?_⟩
  · intro t ht
    obtain ⟨rr, hrr⟩ := processRows_events_are_sink sink tok rows acc _ ht
    exact Event.noConfusion hrr
  · intro t ts ht
    obtain ⟨rr, hrr⟩ := processRows_events_are_sink sink tok rows acc _ ht
    exact Event.noConfusion hrr
  · intro e2 ht
    obtain ⟨rr, hrr⟩ := processRows_events_are_sink sink tok rows acc _ ht
    exact Event.noConfusion hrr

/-- A task emits the finish marker for its token only if its own claim of
that token succeeded. -/
theorem startRead_finish_needs_claim (d : Dialect) (stream : RowStream)
    (sink : Sink) (states : States) (tok : String) (st : Nat)
    (h : Event.finish tok ∈ (startRead d stream sink states tok st).events) :
    (markStateReading states tok).1 = true := by
  cases hl : lookupState states tok with
  | none => simp [markStateReading_of_not_mem states tok hl]
  | some v =>
    rw [startRead_of_claim_fail d stream sink states tok st v hl] at h
    simp at h

/-- C1: the registry claim operation returns true iff the token has no entry
in the states map, in that case inserting the token with state Reading; a
failing claim leaves the map untouched, and after one successful claim every
later claim of the same token fails, whatever registry operations happen in
between — so at most one caller ever receives true for a given token. -/
theorem markStateReading_claims_once (s : States) (tok : String) (ops : List RegOp) :
    ((markStateReading s tok).1 = true ↔ lookupState s tok = none)
    ∧ ((markStateReading s tok).1 = true →
        lookupState (markStateReading s tok).2 tok = some PartitionState.reading)
    ∧ ((markStateReading s tok).1 = false → (markStateReading s tok).2 = s)
    ∧ ((markStateReading s tok).1 = true →
        (markStateReading (applyOps (markStateReading s tok).2 ops) tok).1 = false) :=
  ⟨markStateReading_true_iff s tok, markStateReading_true_lookup s tok,
    markStateReading_false_eq s tok, claim_false_after s tok ops⟩

/-- Witness for C1 on a concrete registry: claiming a fresh token succeeds. -/
theorem markStateReading_claims_once_witness :
    (markStateReading [] "p").1 = true :=
  (markStateReading_claims_once [] "p" [RegOp.finish "q"]).1.mpr rfl

/-- C2: the parent-readiness predicate is true iff every token in the
ParentPartitionTokens list maps to Finished (absent tokens count as not
finished), and every spawn request a task issues is for an announced child
all of whose parents are Finished in the registry the task hands on. -/
theorem canReadChild_gates_spawn (s : States) (c : ChildPartition) (d : Dialect)
    (stream : RowStream) (sink : Sink) (states : States) (tok : String) (st : Nat) :
    (canReadChild s c = true ↔
      ∀ t ∈ c.parentPartitionTokens, stateOf s t = PartitionState.finished)
    ∧ (∀ sp ∈ (startRead d stream sink states tok st).spawns,
        ∃ child : ChildPartition, child.token = sp.token ∧
          ∀ p ∈ child.parentPartitionTokens,
            stateOf (startRead d stream sink states tok st).states p
              = PartitionState.finished) := by
  refine ⟨canReadChild_eq_true_iff s c, ?_⟩
  intro sp hsp
  cases hl : lookupState states tok with
  | some v =>
    rw [startRead_of_claim_fail d stream sink states tok st v hl] at hsp
    simp at hsp
  | none =>
    by_cases hd : d = Dialect.other
    · subst hd
      rw [startRead_of_other_dialect stream sink states tok st hl] at hsp
      simp at hsp
    · cases he : (processRows sink tok stream.rows []).2.2 with
      | some e =>
        rw [startRead_of_row_err d stream sink states tok st e hl hd he] at hsp
        simp at hsp
      | none =>
        cases hse : stream.streamErr with
        | some e =>
          rw [startRead_of_stream_err d stream sink states tok st e hl hd he hse] at hsp
          simp at hsp
        | none =>
          rw [startRead_of_clean d stream sink states tok st hl hd he hse] at hsp
          rw [startRead_of_clean d stream sink states tok st hl hd he hse]
          obtain ⟨child, htok, hcan⟩ := mem_spawnRequests _ _ sp hsp
          exact ⟨child, htok, (canReadChild_eq_true_iff _ child).mp hcan⟩

/-- Witness for C2 on a concrete registry: a child whose single parent is
Finished passes the gate. -/
theorem canReadChild_gates_spawn_witness :
    canReadChild [("a", PartitionState.finished)]
      { token := "c", parentPartitionTokens := ["a"] } = true :=
  (canReadChild_gates_spawn [("a", PartitionState.finished)]
      { token := "c", parentPartitionTokens := ["a"] }
      Dialect.googleSQL { rows := [], streamErr := none } (fun _ => none) [] "p" 0).1.mpr
    (by decide)

/-- C3: when the row stream, the decoder or the sink errors, the task
propagates that error, leaves its token in Reading (never Finished), issues
no spawn request, and its trace holds no finish and no spawn event — so no
announced child ever transitions to Reading via this parent. -/
theorem startRead_error_stalls (d : Dialect) (stream : RowStream) (sink : Sink)
    (states : States) (tok : String) (st : Nat) (e : Err)
    (hclaim : lookupState states tok = none) (hd : d ≠ Dialect.other)
    (herr : (processRows sink tok stream.rows []).2.2 = some e ∨
      ((processRows sink tok stream.rows []).2.2 = none ∧ stream.streamErr = some e)) :
    (startRead d stream sink states tok st).err = some e
    ∧ (startRead d stream sink states tok st).states
        = (tok, PartitionState.reading) :: states
    ∧ (startRead d stream sink states tok st).spawns = []
    ∧ Event.finish tok ∉ (startRead d stream sink states tok st).events
    ∧ ∀ t ts, Event.spawn t ts ∉ (startRead d stream sink states tok st).events := by
  have hshape : startRead d stream sink states tok st =
      { states := (tok, PartitionState.reading) :: states
        events := Event.claim tok true :: (processRows sink tok stream.rows []).2.1
                    ++ [Event.taskReturn (some e)]
        spawns := []
        err := some e } := by
    rcases herr with he | ⟨he, hse⟩
    · exact startRead_of_row_err d stream sink states tok st e hclaim hd he
    · exact startRead_of_stream_err d stream sink states tok st e hclaim hd he hse
  rw [hshape]
  refine ⟨rfl, rfl, rfl, ?_, ?_⟩
  · intro hmem
    rcases List.mem_cons.mp hmem with h1 | h1
    · exact Event.noConfusion h1
    · rcases List.mem_append.mp h1 with h2 | h2
      · exact (processRows_no_finish_no_spawn sink tok stream.rows []).1 tok h2
      · exact Event.noConfusion (List.mem_singleton.mp h2)
  · intro t ts hmem
    rcases List.mem_cons.mp hmem with h1 | h1
    · exact Event.noConfusion h1
    · rcases List.mem_append.mp h1 with h2 | h2
      · exact (processRows_no_finish_no_spawn sink tok stream.rows []).2.1 t ts h2
      · exact Event.noConfusion (List.mem_singleton.mp h2)

/-- Witness for C3 on a concrete run whose only row fails to decode. -/
theorem startRead_error_stalls_witness :
    (startRead Dialect.googleSQL { rows := [Except.error "boom"], streamErr := none }
      (fun _ => none) [] "p" 0).err = some "boom" :=
  (startRead_error_stalls Dialect.googleSQL
      { rows := [Except.error "boom"], streamErr := none }
      (fun _ => none) [] "p" 0 "boom" rfl (by decide) (Or.inl rfl)).1

/-- C4: the event trace of every task ends with its single completion
marker, and every spawn request it issued appears strictly before that
marker — children are spawned before the task signals completion. -/
theorem startRead_spawns_before_return (d : Dialect) (stream : RowStream)
    (sink : Sink) (states : States) (tok : String) (st : Nat) :
    ∃ pre, (startRead d stream sink states tok st).events
        = pre ++ [Event.taskReturn (startRead d stream sink states tok st).err]
      ∧ (∀ e2, Event.taskReturn e2 ∉ pre)
      ∧ ∀ sp ∈ (startRead d stream sink states tok st).spawns,
          Event.spawn sp.token sp.startTimestamp ∈ pre := by
  cases hl : lookupState states tok with
  | some v =>
    rw [startRead_of_claim_fail d stream sink states tok st v hl]
    exact ⟨[Event.claim tok false], by simp, by simp, by simp⟩
  | none =>
    by_cases hd : d = Dialect.other
    · subst hd
      rw [startRead_of_other_dialect stream sink states tok st hl]
      exact ⟨[Event.claim tok true], by simp, by simp, by simp⟩
    · cases he : (processRows sink tok stream.rows []).2.2 with
      | some e =>
        rw [startRead_of_row_err d stream sink states tok st e hl hd he]
        refine ⟨Event.claim tok true :: (processRows sink tok stream.rows []).2.1,
          by simp, ?_, by simp⟩
        intro e2
        simp only [List.mem_cons, not_or]
        exact ⟨fun h => Event.noConfusion h,
          (processRows_no_finish_no_spawn sink tok stream.rows []).2.2 e2⟩
      | none =>
        cases hse : stream.streamErr with
        | some e =>
          rw [startRead_of_stream_err d stream sink states tok st e hl hd he hse]
          refine ⟨Event.claim tok true :: (processRows sink tok stream.rows []).2.1,
            by simp, ?_, by simp⟩
          intro e2
          simp only [List.mem_cons, not_or]
          exact ⟨fun h => Event.noConfusion h,
            (processRows_no_finish_no_spawn sink tok stream.rows []).2.2 e2⟩
        | none =>
          rw [startRead_of_clean d stream sink states tok st hl hd he hse]
          refine ⟨Event.claim tok true :: (processRows sink tok stream.rows []).2.1
              ++ [Event.finish tok]
              ++ (spawnRequests
                    ((tok, PartitionState.finished) :: (tok, PartitionState.reading) :: states)
                    (processRows sink tok stream.rows []).1).map
                  (fun sp => Event.spawn sp.token sp.startTimestamp),
            by simp, ?_, ?_⟩
          · intro e2 hmem
            rcases List.mem_cons.mp hmem with h1 | h1
            · exact Event.noConfusion h1
            · rcases List.mem_append.mp h1 with h2 | h2
              · rcases List.mem_append.mp h2 with h3 | h3
                · exact (processRows_no_finish_no_spawn sink tok stream.rows []).2.2 e2 h3
                · exact Event.noConfusion (List.mem_singleton.mp h3)
              · obtain ⟨sp, _, hsp⟩ := List.mem_map.mp h2
                exact Event.noConfusion hsp
          · intro sp hsp
            exact List.mem_cons_of_mem _
              (List.mem_append_right _ (List.mem_map_of_mem _ hsp))

/-- Witness for C4 on a concrete clean run with one decoded row. -/
theorem startRead_spawns_before_return_witness :
    ∃ pre, (startRead Dialect.googleSQL
        { rows := [Except.ok []], streamErr := none } (fun _ => none) [] "p" 0).events
        = pre ++ [Event.taskReturn (startRead Dialect.googleSQL
            { rows := [Except.ok []], streamErr := none } (fun _ => none) [] "p" 0).err]
      ∧ (∀ e2, Event.taskReturn e2 ∉ pre)
      ∧ ∀ sp ∈ (startRead Dialect.googleSQL
          { rows := [Except.ok []], streamErr := none } (fun _ => none) [] "p" 0).spawns,
          Event.spawn sp.token sp.startTimestamp ∈ pre :=
  startRead_spawns_before_return Dialect.googleSQL
    { rows := [Except.ok []], streamErr := none } (fun _ => none) [] "p" 0

/-- C5: registry states only ever move forward along
Unknown → Reading → Finished: a successful claim moves an absent (Unknown)
token to Reading, no sequence of registry operations lowers the rank of any
token or lets a claimed token be claimed again, and a task marks a token
Finished only when its own claim of that token succeeded. -/
theorem partitionState_forward_only (s : States) (ops : List RegOp) (t : String)
    (d : Dialect) (stream : RowStream) (sink : Sink) (states : States)
    (tok : String) (st : Nat) :
    (stateRank (stateOf s t) ≤ stateRank (stateOf (applyOps s ops) t))
    ∧ ((markStateReading s t).1 = true →
        stateOf s t = PartitionState.unknown
        ∧ stateOf (markStateReading s t).2 t = PartitionState.reading)
    ∧ ((markStateReading s t).1 = true →
        (markStateReading (applyOps (markStateReading s t).2 ops) t).1 = false)
    ∧ (Event.finish tok ∈ (startRead d stream sink states tok st).events →
        (markStateReading states tok).1 = true) := by
  refine ⟨applyOps_rank_mono s ops t, ?_, claim_false_after s t ops,
    startRead_finish_needs_claim d stream sink states tok st⟩
  intro h
  have hn : lookupState s t = none := (markStateReading_true_iff s t).mp h
  exact ⟨by simp [stateOf, hn],
    by simp [stateOf, markStateReading_true_lookup s t h]⟩

/-- Witness for C5 on a concrete history: after claiming and finishing a
token, a second claim of it fails. -/
theorem partitionState_forward_only_witness :
    (markStateReading (applyOps (markStateReading [] "p").2 [RegOp.finish "p"]) "p").1
      = false :=
  (partitionState_forward_only [] [RegOp.finish "p"] "p" Dialect.googleSQL
      { rows := [], streamErr := none } (fun _ => none) [] "p" 0).2.2.1 rfl

/-- C6: a second Read call on the same Reader (group already set) returns
the already-started error immediately, spawns no root task, and leaves the
reader — its states map and group flag included — unchanged. -/
theorem read_reentry_rejected (r : Reader) (now : Nat) (stream : RowStream)
    (sink : Sink) (h : r.groupSet = true) :
    (r.read now stream sink).err = some "reader has already been read"
    ∧ (r.read now stream sink).reader = r
    ∧ (r.read now stream sink).rootSpawns = []
    ∧ (r.read now stream sink).rootTask = none := by
  simp [Reader.read, h]

/-- Witness for C6 on a concrete already-started reader. -/
theorem read_reentry_rejected_witness :
    (Reader.read (Reader.mk 1 Dialect.googleSQL [] true) 5
        (RowStream.mk [] none) (fun _ => none)).err
      = some "reader has already been read" :=
  (read_reentry_rejected (Reader.mk 1 Dialect.googleSQL [] true) 5
      (RowStream.mk [] none) (fun _ => none) rfl).1

/-- C7: on a clean run the sink is invoked exactly once per row, in the
order the stream produced the rows, and the finish marker comes strictly
after the last sink delivery (and the spawns after it, before the return). -/
theorem startRead_sink_order_finish_last (d : Dialect) (stream : RowStream)
    (sink : Sink) (states : States) (tok : String) (st : Nat)
    (hclaim : lookupState states tok = none) (hd : d ≠ Dialect.other)
    (hok : (startRead d stream sink states tok st).err = none) :
    ∃ decoded : List (List ChangeRecord),
      stream.rows = decoded.map Except.ok
      ∧ (startRead d stream sink states tok st).events
          = Event.claim tok true
              :: decoded.map
                  (fun cs => Event.sink { partitionToken := tok, changeRecords := cs })
              ++ [Event.finish tok]
              ++ ((startRead d stream sink states tok st).spawns.map
                    (fun sp => Event.spawn sp.token sp.startTimestamp))
              ++ [Event.taskReturn none] := by
  cases he : (processRows sink tok stream.rows []).2.2 with
  | some e =>
    rw [startRead_of_row_err d stream sink states tok st e hclaim hd he] at hok
    exact absurd hok (by simp)
  | none =>
    cases hse : stream.streamErr with
    | some e =>
      rw [startRead_of_stream_err d stream sink states tok st e hclaim hd he hse] at hok
      exact absurd hok (by simp)
    | none =>
      obtain ⟨decoded, hrows, hevs⟩ :=
        processRows_ok_events sink tok stream.rows [] he
      refine ⟨decoded, hrows, ?_⟩
      rw [startRead_of_clean d stream sink states tok st hclaim hd he hse, hevs]

/-- Witness for C7 on a concrete clean run with two decoded rows. -/
theorem startRead_sink_order_finish_last_witness :
    ∃ decoded : List (List ChangeRecord),
      (RowStream.mk [Except.ok [], Except.ok []] none).rows = decoded.map Except.ok
      ∧ (startRead Dialect.googleSQL (RowStream.mk [Except.ok [], Except.ok []] none)
          (fun _ => none) [] "p" 0).events
          = Event.claim "p" true
              :: decoded.map
                  (fun cs => Event.sink { partitionToken := "p", changeRecords := cs })
              ++ [Event.finish "p"]
              ++ ((startRead Dialect.googleSQL
                    (RowStream.mk [Except.ok [], Except.ok []] none)
                    (fun _ => none) [] "p" 0).spawns.map
                    (fun sp => Event.spawn sp.token sp.startTimestamp))
              ++ [Event.taskReturn none] :=
  startRead_sink_order_finish_last Dialect.googleSQL
    (RowStream.mk [Except.ok [], Except.ok []] none)
    (fun _ => none) [] "p" 0 rfl (by decide) rfl

/-- C8: when the claim of a token fails, the task returns nil immediately:
no error, the states map untouched, no spawn request, and a trace holding
only the failed claim and the return — duplicate announcements are absorbed
silently. -/
theorem startRead_duplicate_absorbed (d : Dialect) (stream : RowStream)
    (sink : Sink) (states : States) (tok : String) (st : Nat) (v : PartitionState)
    (h : lookupState states tok = some v) :
    (startRead d stream sink states tok st).err = none
    ∧ (startRead d stream sink states tok st).states = states
    ∧ (startRead d stream sink states tok st).spawns = []
    ∧ (startRead d stream sink states tok st).events
        = [Event.claim tok false, Event.taskReturn none] := by
  rw [startRead_of_claim_fail d stream sink states tok st v h]
  exact ⟨rfl, rfl, rfl, rfl⟩

/-- Witness for C8 on a concrete registry already holding the token. -/
theorem startRead_duplicate_absorbed_witness :
    (startRead Dialect.googleSQL { rows := [Except.error "boom"], streamErr := none }
      (fun _ => none) [("p", PartitionState.reading)] "p" 0).err = none :=
  (startRead_duplicate_absorbed Dialect.googleSQL
      { rows := [Except.error "boom"], streamErr := none }
      (fun _ => none) [("p", PartitionState.reading)] "p" 0
      PartitionState.reading rfl).1

/-- C9: the first Read call spawns exactly one root task with the empty
token, starting at the configured StartTimestamp when it is non-zero and at
the current time otherwise, and returns the error the wait on that
traversal yields. -/
theorem read_first_call_root (r : Reader) (now : Nat) (stream : RowStream)
    (sink : Sink) (h : r.groupSet = false) :
    (r.read now stream sink).rootSpawns
      = [{ token := "",
           startTimestamp := if r.startTimestamp = 0 then now else r.startTimestamp }]
    ∧ (r.read now stream sink).rootTask
      = some (startRead r.dialect stream sink r.states ""
          (if r.startTimestamp = 0 then now else r.startTimestamp))
    ∧ (r.read now stream sink).err
      = (startRead r.dialect stream sink r.states ""
          (if r.startTimestamp = 0 then now else r.startTimestamp)).err := by
  simp [Reader.read, h]

/-- Witness for C9 on a concrete fresh reader with a zero StartTimestamp:
the root spawn starts at the current time. -/
theorem read_first_call_root_witness :
    (Reader.read (Reader.mk 0 Dialect.googleSQL [] false) 5
        (RowStream.mk [] none) (fun _ => none)).rootSpawns
      = [SpawnReq.mk "" 5] := by
  simpa using (read_first_call_root (Reader.mk 0 Dialect.googleSQL [] false) 5
      (RowStream.mk [] none) (fun _ => none) rfl).1

/-- C10: a child whose ParentPartitionTokens list is empty passes the
parent-readiness check against every registry. -/
theorem canReadChild_empty_parents (s : States) (tok : String) :
    canReadChild s { token := tok, parentPartitionTokens := [] } = true := by
  simp [canReadChild]

/-- Witness for C10 on a concrete registry. -/
theorem canReadChild_empty_parents_witness :
    canReadChild [("a", PartitionState.reading)]
      { token := "c", parentPartitionTokens := [] } = true :=
  canReadChild_empty_parents [("a", PartitionState.reading)] "c"

end ChangeStreams
